import Mathlib

/-!
Verification of the comet-kernel generation script
(src/scripts/generate-comet-kernels.py).

The script is shallowly embedded below.  Python strings are modeled as
List Char, Python floats as an explicit IEEE-like type PFloat (finite
values carried exactly as decimal fixed-point numbers m * 10^(-s),
which is exact for the decimal literals and the linear epoch transform
the script works with, plus the two infinities and NaN), Python
exceptions as Except / Option results, and the side-effecting
kernel-writing pipeline of generate_kernels as an event trace driven by
an oracle that decides which external calls succeed.
-/

set_option maxRecDepth 100000

deriving instance DecidableEq for Except

/-- Model of a Python float value: NaN, the two infinities, or a finite
value m * 10^(-s) carried exactly as an integer mantissa and a decimal
scale. -/
inductive PFloat
  | nan
  | pinf
  | ninf
  | num (m : Int) (s : Nat)
deriving DecidableEq

/-- IEEE-style strict less-than on modeled floats (NaN compares false
with everything, as in Python). -/
def pfLt : PFloat → PFloat → Bool
  | PFloat.num m1 s1, PFloat.num m2 s2 => decide (m1 * 10 ^ s2 < m2 * 10 ^ s1)
  | PFloat.ninf, PFloat.num _ _ => true
  | PFloat.ninf, PFloat.pinf => true
  | PFloat.num _ _, PFloat.pinf => true
  | _, _ => false

/-- Whether a list of modeled floats is strictly increasing under pfLt. -/
def pfChainLt : List PFloat → Bool
  | [] => true
  | [_] => true
  | a :: b :: t => pfLt a b && pfChainLt (b :: t)

/-- JD_J2000 = 2451545.0 from the script (an exact integer value). -/
def JD_J2000 : Int := 2451545

/-- DAY_SEC = 86400.0 from the script (an exact integer value). -/
def DAY_SEC : Int := 86400

/-- The epoch conversion et = (jd - JD_J2000) * DAY_SEC from
_parse_horizons_vectors, lifted to modeled floats (the constants are
finite, so an infinite jd stays infinite and NaN stays NaN). -/
def etOf : PFloat → PFloat
  | PFloat.num m s => PFloat.num ((m - JD_J2000 * 10 ^ s) * DAY_SEC) s
  | PFloat.pinf => PFloat.pinf
  | PFloat.ninf => PFloat.ninf
  | PFloat.nan => PFloat.nan

/-- ASCII whitespace as recognized by Python str.strip and re \s
(space, tab, newline, carriage return, vertical tab, form feed).
Non-ASCII whitespace is not modeled. -/
def pyIsSpace (c : Char) : Bool :=
  c == ' ' || c == '\t' || c == '\n' || c == '\r' ||
    c == Char.ofNat 11 || c == Char.ofNat 12

/-- Python str.strip(): remove leading and trailing whitespace. -/
def pyStrip (l : List Char) : List Char :=
  ((l.dropWhile pyIsSpace).reverse.dropWhile pyIsSpace).reverse

/-- Python str.split(sep) for a one-character separator: every
occurrence splits, empty pieces are kept. -/
def splitOnChar (sep : Char) : List Char → List (List Char)
  | [] => [[]]
  | c :: rest =>
    match splitOnChar sep rest with
    | [] => [[]]
    | h :: t => if c == sep then [] :: h :: t else (c :: h) :: t

/-- Splitting a text into lines at newline characters.  This models
str.splitlines and the line structure seen by re.MULTILINE for
newline-separated text (other line separators are not modeled). -/
def splitLines (l : List Char) : List (List Char) :=
  splitOnChar '\n' l

/-- Python str.find(pat): index of the leftmost occurrence, or none
(Python returns -1). -/
def pyFind (pat : List Char) : List Char → Option Nat
  | [] => if pat.isEmpty then some 0 else none
  | c :: rest =>
    if pat.isPrefixOf (c :: rest) then some 0
    else (pyFind pat rest).map (fun n => n + 1)

/-- Numeric value of a list of decimal digit characters ('0' has code 48). -/
def natOfDigits (ds : List Char) : Nat :=
  ds.foldl (fun a c => a * 10 + (c.toNat - 48)) 0

/-- Scale a mantissa/scale pair by the (optionally negated) decimal
exponent of a float literal. -/
def expValue (ms : Nat × Nat) (neg : Bool) (ds : List Char) : Nat × Nat :=
  if neg then (ms.1, ms.2 + natOfDigits ds) else (ms.1 * 10 ^ natOfDigits ds, ms.2)

/-- Parse the optional exponent suffix of a Python float literal; the
whole remainder must be consumed. -/
def parseExpTail (ms : Nat × Nat) (l : List Char) : Option (Nat × Nat) :=
  match l with
  | [] => some ms
  | c :: r =>
    if c == 'e' || c == 'E' then
      let sr :=
        match r with
        | '+' :: t => (false, t)
        | '-' :: t => (true, t)
        | t => (false, t)
      let ds := sr.2.takeWhile Char.isDigit
      let r3 := sr.2.dropWhile Char.isDigit
      if ds.isEmpty || !r3.isEmpty then none
      else some (expValue ms sr.1 ds)
    else none

/-- Parse an unsigned Python float literal body
(digits, optional fraction, optional exponent; at least one mantissa
digit; PEP 515 underscore grouping is not modeled). -/
def parseUnsigned (l : List Char) : Option (Nat × Nat) :=
  let ip := l.takeWhile Char.isDigit
  let r1 := l.dropWhile Char.isDigit
  match r1 with
  | '.' :: r2 =>
    let fp := r2.takeWhile Char.isDigit
    let r3 := r2.dropWhile Char.isDigit
    if ip.isEmpty && fp.isEmpty then none
    else parseExpTail (natOfDigits (ip ++ fp), fp.length) r3
  | _ => if ip.isEmpty then none else parseExpTail (natOfDigits ip, 0) r1

/-- Model of Python float(tok): strip whitespace, optional sign, then
either inf / infinity / nan (case-insensitive) or a decimal literal;
none models ValueError. -/
def pyFloat (tok : List Char) : Option PFloat :=
  let s := pyStrip tok
  if s.isEmpty then none
  else
    let sb :=
      match s with
      | '+' :: t => (false, t)
      | '-' :: t => (true, t)
      | t => (false, t)
    let lower := sb.2.map Char.toLower
    if lower == ("inf".data) || lower == ("infinity".data) then
      some (if sb.1 then PFloat.ninf else PFloat.pinf)
    else if lower == ("nan".data) then some PFloat.nan
    else
      match parseUnsigned sb.2 with
      | some ms => some (PFloat.num (if sb.1 then -(ms.1 : Int) else (ms.1 : Int)) ms.2)
      | none => none

/-- One token of a data row: float(p), with ValueError tokens and
NaN-valued tokens (v != v) skipped. -/
def numTok (p : List Char) : Option PFloat :=
  match pyFloat p with
  | some PFloat.nan => none
  | some v => some v
  | none => none

/-- The numeric values extracted from one (already stripped) data-block
record: split at commas, strip each field, keep the parseable non-NaN
numbers in order. -/
def rowNums (line : List Char) : List PFloat :=
  ((splitOnChar ',' line).map pyStrip).filterMap numTok

/-- The error taxonomy of _parse_horizons_vectors.  The script raises
RuntimeError with distinct messages; intValue models the uncaught
ValueError from int() on a capture such as "1-2". -/
inductive ParseError
  | identifier
  | intValue
  | markers
  | malformedRow
  | tooFewRows
deriving DecidableEq

/-- The character class [-0-9] of the Target-body regex capture group. -/
def isIdChar (c : Char) : Bool :=
  c == '-' || c.isDigit

/-- The literal header of the first identifier pattern. -/
def tbLit : List Char := "Target body name:".data

/-- Matching one line against
r"^\s*Target body name:\s*.*\(([-0-9]+)\)\s*$" and returning the capture:
after optional leading whitespace and the literal header, the line (up to
trailing whitespace) must end with a parenthesized nonempty run of
[-0-9] characters; greedy .* makes the capture the maximal such run
adjacent to the final closing parenthesis. -/
def matchTargetBody (l : List Char) : Option (List Char) :=
  let l1 := l.dropWhile pyIsSpace
  if tbLit.isPrefixOf l1 then
    let rest := (l1.drop tbLit.length).reverse.dropWhile pyIsSpace
    match rest with
    | ')' :: t =>
      let g := t.takeWhile isIdChar
      if g.isEmpty then none
      else
        match t.drop g.length with
        | '(' :: _ => some g.reverse
        | _ => none
    | _ => none
  else none

/-- ASCII word characters of re \b (non-ASCII word characters are not
modeled). -/
def isWordChar (c : Char) : Bool :=
  c.isDigit || c.isAlpha || c == '_'

/-- The literal header of the second identifier pattern. -/
def recLit : List Char := "Rec #:".data

/-- Matching one line against r"^\s*Rec #:(\d+)\b" and returning the
digits: optional leading whitespace, the literal header, a nonempty
digit run, and (for the word boundary) no word character directly after
the run. -/
def matchRecNo (l : List Char) : Option (List Char) :=
  let l1 := l.dropWhile pyIsSpace
  if recLit.isPrefixOf l1 then
    let rest := l1.drop recLit.length
    let ds := rest.takeWhile Char.isDigit
    if ds.isEmpty then none
    else
      match rest.drop ds.length with
      | [] => some ds
      | c :: _ => if isWordChar c then none else some ds
  else none

/-- Python int() applied to a capture drawn from [-0-9]+: an optional
leading minus sign followed by at least one digit; anything else (a
stray dash) raises ValueError, modeled as none. -/
def pyInt (g : List Char) : Option Int :=
  match g with
  | '-' :: ds =>
    if ds.isEmpty || !ds.all Char.isDigit then none
    else some (-(natOfDigits ds : Int))
  | ds =>
    if ds.isEmpty || !ds.all Char.isDigit then none
    else some (natOfDigits ds : Int)

/-- Identifier resolution of _parse_horizons_vectors: first re.search
for the Target-body pattern (first matching line wins), else re.search
for the Rec # pattern, else the RuntimeError for a missing identifier. -/
def resolveId (text : List Char) : Except ParseError Int :=
  match List.findSome? matchTargetBody (splitLines text) with
  | some g =>
    match pyInt g with
    | some n => Except.ok n
    | none => Except.error ParseError.intValue
  | none =>
    match List.findSome? matchRecNo (splitLines text) with
    | some ds => Except.ok (Int.ofNat (natOfDigits ds))
    | none => Except.error ParseError.identifier

/-- Locating the $$SOE / $$EOE data block: result_text.find on both
markers, error if either is missing or end <= start, otherwise the
slice result_text[start+5 : end]. -/
def extractBlock (text : List Char) : Option (List Char) :=
  match pyFind ("$$SOE".data) text, pyFind ("$$EOE".data) text with
  | some s, some e =>
    if e ≤ s then none else some ((text.drop (s + 5)).take (e - (s + 5)))
  | _, _ => none

/-- The record loop of _parse_horizons_vectors: strip each raw line,
skip blank lines, extract the numeric columns, raise on a record with
fewer than 7 numbers, otherwise append the converted epoch and the
six-component state [x, y, z, vx, vy, vz]. -/
def parseRows : List (List Char) → Except ParseError (List PFloat × List (List PFloat))
  | [] => Except.ok ([], [])
  | raw :: rest =>
    if (pyStrip raw).isEmpty then parseRows rest
    else if (rowNums (pyStrip raw)).length < 7 then Except.error ParseError.malformedRow
    else
      match parseRows rest with
      | Except.error e => Except.error e
      | Except.ok (es, ss) =>
        Except.ok (etOf ((rowNums (pyStrip raw)).headD PFloat.nan) :: es,
          ((rowNums (pyStrip raw)).drop 1).take 6 :: ss)

/-- _parse_horizons_vectors(result_text): resolve the identifier, locate
the data block, parse the records, and require at least 4 rows. -/
def parseHorizonsVectors (text : List Char) :
    Except ParseError (Int × List PFloat × List (List PFloat)) :=
  match resolveId text with
  | Except.error e => Except.error e
  | Except.ok naifId =>
    match extractBlock text with
    | none => Except.error ParseError.markers
    | some block =>
      match parseRows (splitLines block) with
      | Except.error e => Except.error e
      | Except.ok (epochs, states) =>
        if epochs.length < 4 then Except.error ParseError.tooFewRows
        else Except.ok (naifId, epochs, states)

/-- The stripped non-blank records of a list of raw lines, in order. -/
def nonBlankRows (lines : List (List Char)) : List (List Char) :=
  (lines.map pyStrip).filter (fun l => !l.isEmpty)

/-- The first numeric column (the Julian date) of every non-blank record
of the data block of a raw response; used to state the well-formedness
assumption that the source emits epochs in increasing order. -/
def firstCols (text : List Char) : List PFloat :=
  match extractBlock text with
  | some b => (nonBlankRows (splitLines b)).map (fun l => (rowNums l).headD PFloat.nan)
  | none => []

/-- The single-quote character used by the COMMAND quoting helper. -/
def qc : Char := Char.ofNat 39

/-- Python v.startswith(chr(39)). -/
def startsQ : List Char → Bool
  | [] => false
  | c :: _ => c == qc

/-- Python v.endswith(chr(39)). -/
def endsQ (l : List Char) : Bool :=
  match l.getLast? with
  | some c => c == qc
  | none => false

/-- Whether the value already looks quoted: it starts and ends with a
single-quote character (a one-character quote satisfies both). -/
def pyQuoted (v : List Char) : Bool :=
  startsQ v && endsQ v

/-- The query-value quoting helper q of _fetch_horizons_result_text:
return an already-quoted value unchanged, otherwise wrap it in single
quotes. -/
def q (v : List Char) : List Char :=
  if pyQuoted v then v else (qc :: v) ++ [qc]

/-- CometSpec from the script: a display label and a Horizons
designation. -/
structure CometSpec where
  label : List Char
  designation : List Char
deriving DecidableEq

/-- The curated comet catalog COMETS. -/
def COMETS : List CometSpec :=
  [⟨"1P/Halley".data, "1P".data⟩,
   ⟨"2P/Encke".data, "2P".data⟩,
   ⟨"9P/Tempel 1".data, "9P".data⟩,
   ⟨"10P/Tempel 2".data, "10P".data⟩,
   ⟨"12P/Pons-Brooks".data, "12P".data⟩,
   ⟨"17P/Holmes".data, "17P".data⟩,
   ⟨"19P/Borrelly".data, "19P".data⟩,
   ⟨"21P/Giacobini-Zinner".data, "21P".data⟩,
   ⟨"45P/Honda–Mrkos–Pajdušáková".data, "45P".data⟩,
   ⟨"46P/Wirtanen".data, "46P".data⟩,
   ⟨"55P/Tempel-Tuttle".data, "55P".data⟩,
   ⟨"67P/Churyumov–Gerasimenko".data, "67P".data⟩,
   ⟨"73P/Schwassmann–Wachmann 3".data, "73P".data⟩,
   ⟨"81P/Wild 2".data, "81P".data⟩,
   ⟨"96P/Machholz 1".data, "96P".data⟩,
   ⟨"103P/Hartley 2".data, "103P".data⟩,
   ⟨"C/1995 O1 (Hale–Bopp)".data, "C/1995 O1".data⟩,
   ⟨"C/1996 B2 (Hyakutake)".data, "C/1996 B2".data⟩,
   ⟨"C/2006 P1 (McNaught)".data, "C/2006 P1".data⟩,
   ⟨"C/2020 F3 (NEOWISE)".data, "C/2020 F3".data⟩]

/-- Python str(n) for an int: decimal digits with a leading minus sign
for negative values. -/
def intToChars : Int → List Char
  | Int.ofNat n => Nat.toDigits 10 n
  | Int.negSucc n => '-' :: Nat.toDigits 10 (n + 1)

/-- The readable segment identifier f-string
"COMET {designation} ({naif_id})" of _mk_segid. -/
def mkBase (designation : List Char) (naifId : Int) : List Char :=
  ("COMET ".data) ++ designation ++ (" (".data) ++ intToChars naifId ++ (")".data)

/-- The fallback form of _mk_segid:
f"COMET {designation}".replace(" ", "") — every space character (only
spaces, as in the source) is removed. -/
def compactSegid (designation : List Char) : List Char :=
  (("COMET ".data) ++ designation).filter (fun c => !(c == ' '))

/-- _mk_segid(label, designation, naif_id): the readable form when it is
at most 40 characters, otherwise the compacted form truncated to 40.
The label argument is unused, exactly as in the source. -/
def mkSegid (label : List Char) (designation : List Char) (naifId : Int) : List Char :=
  if (mkBase designation naifId).length ≤ 40 then mkBase designation naifId
  else (compactSegid designation).take 40

/-- The chunking loop of _chunked for a positive chunk size n: repeatedly
emit items[i : i+n].  The first argument is recursion fuel; it is always
called with fuel = the list length, which suffices since every step
consumes at least one element when n >= 1. -/
def chunkListF (n : Nat) : Nat → List α → List (List α)
  | _, [] => []
  | 0, l => [l]
  | fuel + 1, x :: xs => ((x :: xs).take n) :: chunkListF n fuel ((x :: xs).drop n)

/-- _chunked(items, size): one group holding everything when size <= 0,
otherwise consecutive chunks of length size (last one possibly
shorter). -/
def chunked (items : List α) (size : Int) : List (List α) :=
  if size ≤ 0 then [items] else chunkListF size.toNat items.length items

/-- The externally visible calls made by generate_kernels for one run,
tagged with the group index and (where applicable) the member index
within the group: Horizons fetch, vector parse, spkopn, spkw09, spkcls,
dafcls. -/
inductive Ev
  | fetch (g m : Nat)
  | parse (g m : Nat)
  | opn (g : Nat)
  | write (g m : Nat)
  | fin (g : Nat)
  | aband (g : Nat)
deriving DecidableEq

/-- The group index an event is tagged with. -/
def evGroup : Ev → Nat
  | Ev.fetch g _ => g
  | Ev.parse g _ => g
  | Ev.opn g => g
  | Ev.write g _ => g
  | Ev.fin g => g
  | Ev.aband g => g

/-- An environment deciding which external calls succeed: fetching,
parsing and segment-writing per (group, member), and opening the output
file per group. -/
structure Oracle where
  fetchOk : Nat → Nat → Bool
  parseOk : Nat → Nat → Bool
  writeOk : Nat → Nat → Bool
  openOk : Nat → Bool

/-- The fetch+parse loop of generate_kernels for one group, starting at
member m with k members remaining: each member is fetched then parsed;
the first failing call aborts (the attempted call is still recorded).
Returns the trace and whether the whole phase succeeded. -/
def fetchSeq (o : Oracle) (g : Nat) : Nat → Nat → List Ev × Bool
  | _, 0 => ([], true)
  | m, k + 1 =>
    if o.fetchOk g m then
      if o.parseOk g m then
        ((Ev.fetch g m) :: (Ev.parse g m) :: (fetchSeq o g (m + 1) k).1,
          (fetchSeq o g (m + 1) k).2)
      else ([Ev.fetch g m, Ev.parse g m], false)
    else ([Ev.fetch g m], false)

/-- The spkw09 loop of generate_kernels for one group: each successful
write increments segments_written; the first failing write aborts the
loop.  Returns the trace, the number of segments written, and whether
the loop completed. -/
def writeSeq (o : Oracle) (g : Nat) : Nat → Nat → List Ev × Nat × Bool
  | _, 0 => ([], 0, true)
  | m, k + 1 =>
    if o.writeOk g m then
      ((Ev.write g m) :: (writeSeq o g (m + 1) k).1,
        (writeSeq o g (m + 1) k).2.1 + 1, (writeSeq o g (m + 1) k).2.2)
    else ([Ev.write g m], 0, false)

/-- The write phase of one group: spkopn, the spkw09 loop, then the
try/finally close: spkcls when at least one segment was written, dafcls
otherwise.  Returns the trace, segments_written, and whether the phase
completed without error. -/
def writePhase (o : Oracle) (g : Nat) (size : Nat) : List Ev × Nat × Bool :=
  ((Ev.opn g) :: (writeSeq o g 0 size).1 ++
      [if 0 < (writeSeq o g 0 size).2.1 then Ev.fin g else Ev.aband g],
    (writeSeq o g 0 size).2.1, (writeSeq o g 0 size).2.2)

/-- Processing of one group by generate_kernels: fetch+parse every
member; on any failure the run aborts before the output file is
touched; an empty group raises before opening as well; otherwise the
file is opened and the write phase runs (a failed spkopn aborts with
nothing written). -/
def runGroup (o : Oracle) (g : Nat) (size : Nat) : List Ev × Bool :=
  if (fetchSeq o g 0 size).2 then
    if size = 0 then ((fetchSeq o g 0 size).1, false)
    else if o.openOk g then
      ((fetchSeq o g 0 size).1 ++ (writePhase o g size).1, (writePhase o g size).2.2)
    else ((fetchSeq o g 0 size).1 ++ [Ev.opn g], false)
  else ((fetchSeq o g 0 size).1, false)

/-- The group loop of generate_kernels over the group sizes, numbering
groups from g: an aborting group terminates the whole run. -/
def runAll (o : Oracle) : List Nat → Nat → List Ev
  | [], _ => []
  | size :: rest, g =>
    if (runGroup o g size).2 then (runGroup o g size).1 ++ runAll o rest (g + 1)
    else (runGroup o g size).1

/-- The full pipeline trace of generate_kernels: chunk the catalog with
_chunked, then process the groups in order. -/
def generateTrace (o : Oracle) (bodies : List CometSpec) (maxPer : Int) : List Ev :=
  runAll o ((chunked bodies maxPer).map List.length) 0

theorem endsQ_wrap (v : List Char) : endsQ (qc :: (v ++ [qc])) = true := by
  have hl : (qc :: (v ++ [qc])).getLast? = some qc := by
    rw [← List.cons_append]
    exact List.getLast?_concat _
  simp [endsQ, hl]

/-- C9: the query-value quoting function q is idempotent: an
already-quoted value is returned unchanged, any other value is wrapped
in single quotes exactly once, and therefore q (q v) = q v for every
string v. -/
theorem quote_idempotent (v : List Char) :
    q (q v) = q v ∧
    (pyQuoted v = true → q v = v) ∧
    (pyQuoted v = false → q v = qc :: (v ++ [qc])) := by
  refine ⟨?_, fun h => by simp [q, h], fun h => by simp [q, h]⟩
  by_cases h : pyQuoted v = true
  · simp [q, h]
  · have hv : q v = qc :: (v ++ [qc]) := by simp [q, h]
    have h2 : pyQuoted (qc :: (v ++ [qc])) = true := by
      simp [pyQuoted, startsQ, endsQ_wrap]
    rw [hv]
    simp [q, h2]

theorem quote_idempotent_witness :
    q (" 5 d".data) = qc :: ((" 5 d".data) ++ [qc]) ∧
      q (q (" 5 d".data)) = q (" 5 d".data) :=
  ⟨(quote_idempotent (" 5 d".data)).2.2 (by decide),
   (quote_idempotent (" 5 d".data)).1⟩

/-- C10: a string that both starts and ends with an apostrophe is
treated as already quoted, including the one-character string consisting
of a single apostrophe, which q returns unchanged (unbalanced) rather
than wrapping. -/
theorem quote_lone_apostrophe : q [qc] = [qc] := by decide

/-- C6: the derived segment identifier is at most 40 characters for
every label, designation and resolved id; the readable form is used
exactly when it fits, otherwise the compacted whitespace-stripped form
truncated to 40 characters. -/
theorem segid_length (label designation : List Char) (naifId : Int) :
    (mkSegid label designation naifId).length ≤ 40 ∧
    ((mkBase designation naifId).length ≤ 40 →
      mkSegid label designation naifId = mkBase designation naifId) ∧
    (40 < (mkBase designation naifId).length →
      mkSegid label designation naifId = (compactSegid designation).take 40) := by
  by_cases h : (mkBase designation naifId).length ≤ 40
  · refine ⟨by simpa [mkSegid, h] using h, fun _ => by simp [mkSegid, h], fun h2 => ?_⟩
    omega
  · refine ⟨?_, fun h2 => absurd h2 h, fun _ => by simp [mkSegid, h]⟩
    simp only [mkSegid, h, if_false]
    simpa using List.length_take_le 40 (compactSegid designation)

theorem segid_length_witness :
    mkSegid ("1P/Halley".data) ("1P".data) 1000033 = mkBase ("1P".data) 1000033 :=
  (segid_length ("1P/Halley".data) ("1P".data) 1000033).2.1 (by decide)

theorem ceil_div_step (n k : Nat) (hn : 1 ≤ n) :
    (n - (k + 1) + k) / (k + 1) + 1 = (n + k) / (k + 1) := by
  have key : (n + k) / (k + 1) = (n - 1) / (k + 1) + 1 := by
    have h2 : n + k = (n - 1) + (k + 1) := by omega
    rw [h2, Nat.add_div_right _ (by omega)]
  rcases le_or_lt (k + 1) n with h | h
  · have h1 : n - (k + 1) + k = n - 1 := by omega
    rw [h1, key]
  · have h1 : n - (k + 1) + k = k := by omega
    rw [h1, key, Nat.div_eq_of_lt (by omega), Nat.div_eq_of_lt (by omega)]

theorem chunkListF_length {α : Type} (k : Nat) :
    ∀ (fuel : Nat) (l : List α), l.length ≤ fuel →
      (chunkListF (k + 1) fuel l).length = (l.length + k) / (k + 1) := by
  intro fuel
  induction fuel with
  | zero =>
    intro l hl
    have hnil : l = [] := List.eq_nil_of_length_eq_zero (by omega)
    subst hnil
    simp only [chunkListF, List.length_nil, List.length]
    rw [Nat.div_eq_of_lt (by omega)]
  | succ fuel ih =>
    intro l hl
    cases l with
    | nil =>
      simp only [chunkListF, List.length_nil, List.length]
      rw [Nat.div_eq_of_lt (by omega)]
    | cons x xs =>
      have hlen : ((x :: xs).drop (k + 1)).length ≤ fuel := by
        simp only [List.length_drop, List.length_cons] at hl ⊢
        omega
      simp only [chunkListF, List.length_cons]
      rw [ih ((x :: xs).drop (k + 1)) hlen]
      simp only [List.length_drop, List.length_cons]
      exact ceil_div_step (xs.length + 1) k (by omega)

theorem chunkListF_get {α : Type} (k : Nat) :
    ∀ (fuel : Nat) (l : List α), l.length ≤ fuel →
      ∀ i, i < (chunkListF (k + 1) fuel l).length →
        (chunkListF (k + 1) fuel l)[i]? = some ((l.drop (i * (k + 1))).take (k + 1)) := by
  intro fuel
  induction fuel with
  | zero =>
    intro l hl i hi
    have hnil : l = [] := List.eq_nil_of_length_eq_zero (by omega)
    subst hnil
    simp [chunkListF] at hi
  | succ fuel ih =>
    intro l hl i hi
    cases l with
    | nil => simp [chunkListF] at hi
    | cons x xs =>
      cases i with
      | zero => simp [chunkListF]
      | succ i =>
        have hlen : ((x :: xs).drop (k + 1)).length ≤ fuel := by
          simp only [List.length_drop, List.length_cons] at hl ⊢
          omega
        have hi2 : i < (chunkListF (k + 1) fuel ((x :: xs).drop (k + 1))).length := by
          simp only [chunkListF, List.length_cons] at hi
          omega
        have hrec := ih ((x :: xs).drop (k + 1)) hlen i hi2
        simp only [chunkListF, List.getElem?_cons_succ]
        rw [hrec, List.drop_drop]
        have harith : k + 1 + i * (k + 1) = (i + 1) * (k + 1) := by ring
        rw [harith]

/-- C7: _chunked partitions deterministically: size <= 0 yields one
group holding all items in order; a positive size yields consecutive
slices items[i*size : (i+1)*size], so the group count is
ceil(len / size) and only the last group can be smaller; in particular
five items with size 2 give groups of sizes [2, 2, 1]. -/
theorem plan_chunking {α : Type} (items : List α) (size : Int) :
    (size ≤ 0 → chunked items size = [items]) ∧
    (0 < size →
      (chunked items size).length = (items.length + (size.toNat - 1)) / size.toNat ∧
      ∀ i, i < (chunked items size).length →
        (chunked items size)[i]? = some ((items.drop (i * size.toNat)).take size.toNat)) ∧
    (∀ a b c d e : α, (chunked [a, b, c, d, e] (2 : Int)).map List.length = [2, 2, 1]) := by
  refine ⟨fun h => by simp [chunked, h], fun h => ?_, fun a b c d e => ?_⟩
  · obtain ⟨kk, hkk⟩ : ∃ kk, size.toNat = kk + 1 := ⟨size.toNat - 1, by omega⟩
    have hn : ¬ size ≤ 0 := by omega
    have hc : chunked items size = chunkListF size.toNat items.length items := by
      simp [chunked, hn]
    rw [hc, hkk]
    refine ⟨?_, fun i hi => chunkListF_get kk items.length items (le_refl _) i hi⟩
    rw [chunkListF_length kk items.length items (le_refl _)]
    simp
  · have h2 : ¬ ((2 : Int) ≤ 0) := by norm_num
    simp [chunked, h2, chunkListF]

theorem plan_chunking_witness :
    chunked [0, 1, 2] (0 : Int) = [[0, 1, 2]] ∧
      (chunked [0, 1, 2, 3, 4] (2 : Int)).map List.length = [2, 2, 1] :=
  ⟨(plan_chunking [0, 1, 2] 0).1 (by decide),
   (plan_chunking ([] : List Nat) 2).2.2 0 1 2 3 4⟩

theorem parseRows_ok_char :
    ∀ (lines : List (List Char)) (es : List PFloat) (ss : List (List PFloat)),
      parseRows lines = Except.ok (es, ss) →
      es = (nonBlankRows lines).map (fun l => etOf ((rowNums l).headD PFloat.nan)) ∧
      ss.length = es.length ∧ (∀ v ∈ ss, v.length = 6) := by
  intro lines
  induction lines with
  | nil =>
    intro es ss h
    simp only [parseRows, Except.ok.injEq, Prod.mk.injEq] at h
    obtain ⟨h1, h2⟩ := h
    subst h1
    subst h2
    simp [nonBlankRows]
  | cons raw rest ih =>
    intro es ss h
    cases hstrip : (pyStrip raw).isEmpty with
    | true =>
      simp only [parseRows, hstrip, if_true] at h
      have hrec := ih es ss h
      simpa [nonBlankRows, hstrip] using hrec
    | false =>
      by_cases hcnt : (rowNums (pyStrip raw)).length < 7
      · simp [parseRows, hstrip, hcnt] at h
      · cases hp : parseRows rest with
        | error e => simp [parseRows, hstrip, hcnt, hp] at h
        | ok p =>
          obtain ⟨es0, ss0⟩ := p
          simp only [parseRows, hstrip, hcnt, hp, Bool.false_eq_true, if_false,
            Except.ok.injEq, Prod.mk.injEq] at h
          obtain ⟨h1, h2⟩ := h
          obtain ⟨hc1, hc2, hc3⟩ := ih es0 ss0 hp
          subst h1
          subst h2
          refine ⟨?_, ?_, ?_⟩
          · rw [hc1]
            simp [nonBlankRows, hstrip]
          · simp [hc2]
          · intro v hv
            rcases List.mem_cons.mp hv with hv | hv
            · subst hv
              simp only [List.length_take, List.length_drop]
              omega
            · exact hc3 v hv

theorem parseRows_malformed :
    ∀ (lines : List (List Char)),
      (∃ l ∈ lines, (pyStrip l).isEmpty = false ∧ (rowNums (pyStrip l)).length < 7) →
      parseRows lines = Except.error ParseError.malformedRow := by
  intro lines
  induction lines with
  | nil =>
    rintro ⟨l, hl, -, -⟩
    simp at hl
  | cons raw rest ih =>
    rintro ⟨l, hl, hne, hlt⟩
    cases hstrip : (pyStrip raw).isEmpty with
    | true =>
      have hrest : l ∈ rest := by
        rcases List.mem_cons.mp hl with h | h
        · subst h
          rw [hstrip] at hne
          cases hne
        · exact h
      simp only [parseRows, hstrip, if_true]
      exact ih ⟨l, hrest, hne, hlt⟩
    | false =>
      by_cases hcnt : (rowNums (pyStrip raw)).length < 7
      · simp [parseRows, hstrip, hcnt]
      · have hrest : l ∈ rest := by
          rcases List.mem_cons.mp hl with h | h
          · subst h
            exact absurd hlt hcnt
          · exact h
        have hrec := ih ⟨l, hrest, hne, hlt⟩
        simp [parseRows, hstrip, hcnt, hrec]

theorem pfLt_etOf {a b : PFloat} (h : pfLt a b = true) :
    pfLt (etOf a) (etOf b) = true := by
  cases a <;> cases b <;> simp [pfLt, etOf] at h ⊢
  case num.num m1 s1 m2 s2 =>
    have hd : (0 : Int) < DAY_SEC := by norm_num [DAY_SEC]
    nlinarith [mul_lt_mul_of_pos_right h hd]

theorem pfChainLt_map_etOf : ∀ (l : List PFloat), pfChainLt l = true →
    pfChainLt (l.map etOf) = true := by
  intro l
  induction l with
  | nil => intro h; simp [pfChainLt]
  | cons a t ih =>
    intro h
    cases t with
    | nil => simp [pfChainLt]
    | cons b t2 =>
      simp only [pfChainLt, Bool.and_eq_true] at h
      obtain ⟨h1, h2⟩ := h
      have hrec := ih h2
      simp only [List.map_cons] at hrec ⊢
      simp only [pfChainLt, Bool.and_eq_true] at hrec ⊢
      exact ⟨pfLt_etOf h1, hrec⟩

theorem parse_ok_inv (text : List Char) (i : Int) (es : List PFloat)
    (ss : List (List PFloat))
    (h : parseHorizonsVectors text = Except.ok (i, es, ss)) :
    resolveId text = Except.ok i ∧
    ∃ b, extractBlock text = some b ∧
      parseRows (splitLines b) = Except.ok (es, ss) ∧ 4 ≤ es.length := by
  unfold parseHorizonsVectors at h
  cases hr : resolveId text with
  | error e => rw [hr] at h; simp at h
  | ok n =>
    rw [hr] at h
    dsimp only at h
    cases hb : extractBlock text with
    | none => rw [hb] at h; simp at h
    | some b =>
      rw [hb] at h
      dsimp only at h
      cases hp : parseRows (splitLines b) with
      | error e => rw [hp] at h; simp at h
      | ok p =>
        obtain ⟨es0, ss0⟩ := p
        rw [hp] at h
        dsimp only at h
        by_cases hl : es0.length < 4
        · simp [hl] at h
        · simp only [hl, if_false, Except.ok.injEq, Prod.mk.injEq] at h
          obtain ⟨h1, h2, h3⟩ := h
          subst h1
          subst h2
          subst h3
          exact ⟨rfl, b, rfl, hp, by omega⟩

/-- C1: for every well-formed raw response accepted by
_parse_horizons_vectors (identifier resolvable, data block present, at
least 4 valid rows), the returned epochs and states have equal length,
and — under the documented input assumption that the source emits the
Julian-date column in strictly increasing order — the returned epochs
are strictly increasing. -/
theorem parse_lengths_and_monotone (text : List Char) (i : Int) (es : List PFloat)
    (ss : List (List PFloat))
    (h : parseHorizonsVectors text = Except.ok (i, es, ss)) :
    es.length = ss.length ∧
    (pfChainLt (firstCols text) = true → pfChainLt es = true) := by
  obtain ⟨hi, b, hb, hr, hlen⟩ := parse_ok_inv text i es ss h
  obtain ⟨hes, hlen2, -⟩ := parseRows_ok_char (splitLines b) es ss hr
  refine ⟨hlen2.symm, fun hc => ?_⟩
  unfold firstCols at hc
  rw [hb] at hc
  dsimp only at hc
  rw [hes]
  have h2 := pfChainLt_map_etOf _ hc
  rw [List.map_map] at h2
  simpa [Function.comp] using h2

theorem parse_lengths_and_monotone_witness :
    pfChainLt [PFloat.num 0 1, PFloat.num 864000 1, PFloat.num 1728000 1,
      PFloat.num 2592000 1] = true :=
  (parse_lengths_and_monotone
    ("Target body name: Halley (900033)\n$$SOE\n2451545.0, 1, 2, 3, 4, 5, 6\n2451546.0, 1, 2, 3, 4, 5, 6\n2451547.0, 1, 2, 3, 4, 5, 6\n2451548.0, 1, 2, 3, 4, 5, 6\n$$EOE".data)
    900033
    [PFloat.num 0 1, PFloat.num 864000 1, PFloat.num 1728000 1, PFloat.num 2592000 1]
    [[PFloat.num 1 0, PFloat.num 2 0, PFloat.num 3 0, PFloat.num 4 0, PFloat.num 5 0, PFloat.num 6 0],
     [PFloat.num 1 0, PFloat.num 2 0, PFloat.num 3 0, PFloat.num 4 0, PFloat.num 5 0, PFloat.num 6 0],
     [PFloat.num 1 0, PFloat.num 2 0, PFloat.num 3 0, PFloat.num 4 0, PFloat.num 5 0, PFloat.num 6 0],
     [PFloat.num 1 0, PFloat.num 2 0, PFloat.num 3 0, PFloat.num 4 0, PFloat.num 5 0, PFloat.num 6 0]]
    (by decide)).2 (by decide)

/-- C5: once the identifier resolves and the data block is located, a
non-blank record yielding fewer than 7 numeric values (after skipping
non-numeric and NaN tokens) makes the whole parse fail with the
malformed-table error; and on success every state vector has exactly 6
components and no non-blank record is silently dropped. -/
theorem malformed_row_fatal (text : List Char) (i : Int) (b : List Char)
    (hi : resolveId text = Except.ok i) (hb : extractBlock text = some b) :
    ((∃ l ∈ splitLines b, (pyStrip l).isEmpty = false ∧ (rowNums (pyStrip l)).length < 7) →
      parseHorizonsVectors text = Except.error ParseError.malformedRow) ∧
    (∀ es ss, parseRows (splitLines b) = Except.ok (es, ss) →
      (∀ v ∈ ss, v.length = 6) ∧
      es.length = (((splitLines b).map pyStrip).filter (fun l => !l.isEmpty)).length) := by
  constructor
  · intro hex
    have hm := parseRows_malformed (splitLines b) hex
    unfold parseHorizonsVectors
    rw [hi]
    dsimp only
    rw [hb]
    dsimp only
    rw [hm]
  · intro es ss hok
    obtain ⟨hes, -, hstates⟩ := parseRows_ok_char (splitLines b) es ss hok
    refine ⟨hstates, ?_⟩
    rw [hes]
    simp [nonBlankRows]

theorem malformed_row_fatal_witness :
    parseHorizonsVectors ("Rec #:90000001\n$$SOE\n2451545.0, 1, 2, 3, 4, 5\n$$EOE".data) =
      Except.error ParseError.malformedRow :=
  (malformed_row_fatal
    ("Rec #:90000001\n$$SOE\n2451545.0, 1, 2, 3, 4, 5\n$$EOE".data)
    90000001
    ("\n2451545.0, 1, 2, 3, 4, 5\n".data)
    (by decide) (by decide)).1 (by decide)

/-- C8: after identifier resolution, block location and record parsing
all succeed, the parse fails with the too-few-rows error exactly when
fewer than 4 valid records were produced, and returns the parsed triple
unchanged when at least 4 were. -/
theorem insufficient_samples_iff (text : List Char) (i : Int) (b : List Char)
    (es : List PFloat) (ss : List (List PFloat))
    (hi : resolveId text = Except.ok i) (hb : extractBlock text = some b)
    (hr : parseRows (splitLines b) = Except.ok (es, ss)) :
    (es.length < 4 → parseHorizonsVectors text = Except.error ParseError.tooFewRows) ∧
    (4 ≤ es.length → parseHorizonsVectors text = Except.ok (i, es, ss)) := by
  have hu : parseHorizonsVectors text =
      (if es.length < 4 then Except.error ParseError.tooFewRows
        else Except.ok (i, es, ss)) := by
    unfold parseHorizonsVectors
    rw [hi]
    dsimp only
    rw [hb]
    dsimp only
    rw [hr]
  constructor
  · intro h4
    rw [hu]
    simp [h4]
  · intro h4
    have h5 : ¬ es.length < 4 := by omega
    rw [hu]
    simp [h5]

theorem insufficient_samples_iff_witness :
    parseHorizonsVectors
        ("Rec #:90000001\n$$SOE\n2451545.0,1,2,3,4,5,6\n2451546.0,1,2,3,4,5,6\n2451547.0,1,2,3,4,5,6\n$$EOE".data) =
      Except.error ParseError.tooFewRows :=
  (insufficient_samples_iff
    ("Rec #:90000001\n$$SOE\n2451545.0,1,2,3,4,5,6\n2451546.0,1,2,3,4,5,6\n2451547.0,1,2,3,4,5,6\n$$EOE".data)
    90000001
    ("\n2451545.0,1,2,3,4,5,6\n2451546.0,1,2,3,4,5,6\n2451547.0,1,2,3,4,5,6\n".data)
    [PFloat.num 0 1, PFloat.num 864000 1, PFloat.num 1728000 1]
    [[PFloat.num 1 0, PFloat.num 2 0, PFloat.num 3 0, PFloat.num 4 0, PFloat.num 5 0, PFloat.num 6 0],
     [PFloat.num 1 0, PFloat.num 2 0, PFloat.num 3 0, PFloat.num 4 0, PFloat.num 5 0, PFloat.num 6 0],
     [PFloat.num 1 0, PFloat.num 2 0, PFloat.num 3 0, PFloat.num 4 0, PFloat.num 5 0, PFloat.num 6 0]]
    (by decide) (by decide) (by decide)).1 (by decide)

/-- C4: identifier resolution is an ordered two-step fallback with the
first match winning: a Target-body header line with a parenthesized
signed integer yields that integer; otherwise a Rec # line yields its
digits; with neither present both resolveId and the whole parse fail
with the identifier-resolution error. -/
theorem identifier_fallback (text : List Char) :
    (∀ g n, List.findSome? matchTargetBody (splitLines text) = some g →
      pyInt g = some n → resolveId text = Except.ok n) ∧
    (List.findSome? matchTargetBody (splitLines text) = none →
      ∀ ds, List.findSome? matchRecNo (splitLines text) = some ds →
        resolveId text = Except.ok (Int.ofNat (natOfDigits ds))) ∧
    (List.findSome? matchTargetBody (splitLines text) = none →
      List.findSome? matchRecNo (splitLines text) = none →
        resolveId text = Except.error ParseError.identifier ∧
        parseHorizonsVectors text = Except.error ParseError.identifier) := by
  refine ⟨?_, ?_, ?_⟩
  · intro g n h1 h2
    unfold resolveId
    rw [h1]
    dsimp only
    rw [h2]
  · intro h1 ds h2
    unfold resolveId
    rw [h1]
    dsimp only
    rw [h2]
  · intro h1 h2
    have hres : resolveId text = Except.error ParseError.identifier := by
      unfold resolveId
      rw [h1]
      dsimp only
      rw [h2]
    refine ⟨hres, ?_⟩
    unfold parseHorizonsVectors
    rw [hres]

theorem identifier_fallback_witness :
    resolveId ("Rec #:12345\nsome other line".data) =
      Except.ok (Int.ofNat (natOfDigits ("12345".data))) :=
  (identifier_fallback ("Rec #:12345\nsome other line".data)).2.1 (by decide)
    ("12345".data) (by decide)

theorem writeSeq_mem (o : Oracle) (g : Nat) :
    ∀ (k m : Nat) (e : Ev), e ∈ (writeSeq o g m k).1 → ∃ j, e = Ev.write g j := by
  intro k
  induction k with
  | zero => intro m e he; simp [writeSeq] at he
  | succ k ih =>
    intro m e he
    by_cases hw : o.writeOk g m = true
    · simp only [writeSeq, hw, if_true, List.mem_cons] at he
      rcases he with he | he
      · exact ⟨m, he⟩
      · exact ih (m + 1) e he
    · have hw2 : o.writeOk g m = false := by
        revert hw
        cases o.writeOk g m <;> simp
      simp only [writeSeq, hw2, Bool.false_eq_true, if_false, List.mem_singleton] at he
      exact ⟨m, he⟩

/-- C2: in every group write phase, when zero segments were written
before the loop ended (an aborting first write), the close path is
dafcls and spkcls is never invoked; when at least one segment was
written, the close path is spkcls and dafcls is never invoked. -/
theorem close_path_selection (o : Oracle) (g : Nat) (size : Nat) :
    ((writePhase o g size).2.1 = 0 →
      Ev.aband g ∈ (writePhase o g size).1 ∧ Ev.fin g ∉ (writePhase o g size).1) ∧
    (0 < (writePhase o g size).2.1 →
      Ev.fin g ∈ (writePhase o g size).1 ∧ Ev.aband g ∉ (writePhase o g size).1) := by
  constructor
  · intro h0
    have h0s : (writeSeq o g 0 size).2.1 = 0 := h0
    have hclose : (if 0 < (writeSeq o g 0 size).2.1 then Ev.fin g else Ev.aband g) =
        Ev.aband g := by
      rw [h0s]
      simp
    constructor
    · simp only [writePhase, hclose]
      simp
    · intro hmem
      simp only [writePhase, hclose] at hmem
      rcases List.mem_cons.mp hmem with h | h
      · simp at h
      · rcases List.mem_append.mp h with h | h
        · obtain ⟨j, hj⟩ := writeSeq_mem o g size 0 _ h
          simp at hj
        · simp at h
  · intro hpos
    have hps : 0 < (writeSeq o g 0 size).2.1 := hpos
    have hclose : (if 0 < (writeSeq o g 0 size).2.1 then Ev.fin g else Ev.aband g) =
        Ev.fin g := by
      simp [hps]
    constructor
    · simp only [writePhase, hclose]
      simp
    · intro hmem
      simp only [writePhase, hclose] at hmem
      rcases List.mem_cons.mp hmem with h | h
      · simp at h
      · rcases List.mem_append.mp h with h | h
        · obtain ⟨j, hj⟩ := writeSeq_mem o g size 0 _ h
          simp at hj
        · simp at h

theorem close_path_selection_witness :
    Ev.aband 0 ∈
      (writePhase ⟨fun _ _ => true, fun _ _ => true, fun _ _ => false, fun _ => true⟩ 0 2).1 ∧
    Ev.fin 0 ∉
      (writePhase ⟨fun _ _ => true, fun _ _ => true, fun _ _ => false, fun _ => true⟩ 0 2).1 :=
  (close_path_selection ⟨fun _ _ => true, fun _ _ => true, fun _ _ => false, fun _ => true⟩
    0 2).1 (by decide)

theorem fetchSeq_mem (o : Oracle) (g : Nat) :
    ∀ (k m : Nat) (e : Ev), e ∈ (fetchSeq o g m k).1 →
      ∃ j, e = Ev.fetch g j ∨ e = Ev.parse g j := by
  intro k
  induction k with
  | zero => intro m e he; simp [fetchSeq] at he
  | succ k ih =>
    intro m e he
    by_cases hf : o.fetchOk g m = true
    · by_cases hp : o.parseOk g m = true
      · simp only [fetchSeq, hf, hp, if_true, List.mem_cons] at he
        rcases he with he | he | he
        · exact ⟨m, Or.inl he⟩
        · exact ⟨m, Or.inr he⟩
        · exact ih (m + 1) e he
      · have hp2 : o.parseOk g m = false := by
          revert hp
          cases o.parseOk g m <;> simp
        simp only [fetchSeq, hf, hp2, Bool.false_eq_true, if_true, if_false,
          List.mem_cons, List.mem_singleton] at he
        rcases he with he | he | he
        · exact ⟨m, Or.inl he⟩
        · exact ⟨m, Or.inr he⟩
        · simp at he
    · have hf2 : o.fetchOk g m = false := by
        revert hf
        cases o.fetchOk g m <;> simp
      simp only [fetchSeq, hf2, Bool.false_eq_true, if_false, List.mem_singleton] at he
      exact ⟨m, Or.inl he⟩

theorem fetchSeq_flag_true (o : Oracle) (g : Nat) :
    ∀ (k m : Nat), (fetchSeq o g m k).2 = true →
      ∀ j, j < k → o.fetchOk g (m + j) = true ∧ o.parseOk g (m + j) = true := by
  intro k
  induction k with
  | zero => intro m h j hj; omega
  | succ k ih =>
    intro m h j hj
    by_cases hf : o.fetchOk g m = true
    · by_cases hp : o.parseOk g m = true
      · have h2 : (fetchSeq o g (m + 1) k).2 = true := by
          simpa [fetchSeq, hf, hp] using h
        cases j with
        | zero => simpa using And.intro hf hp
        | succ j =>
          have e1 : m + (j + 1) = (m + 1) + j := by omega
          rw [e1]
          exact ih (m + 1) h2 j (by omega)
      · have hp2 : o.parseOk g m = false := by
          revert hp
          cases o.parseOk g m <;> simp
        simp [fetchSeq, hf, hp2] at h
    · have hf2 : o.fetchOk g m = false := by
        revert hf
        cases o.fetchOk g m <;> simp
      simp [fetchSeq, hf2] at h

theorem fetchSeq_members (o : Oracle) (g : Nat) :
    ∀ (k m : Nat), (fetchSeq o g m k).2 = true →
      ∀ j, j < k → Ev.fetch g (m + j) ∈ (fetchSeq o g m k).1 ∧
        Ev.parse g (m + j) ∈ (fetchSeq o g m k).1 := by
  intro k
  induction k with
  | zero => intro m h j hj; omega
  | succ k ih =>
    intro m h j hj
    by_cases hf : o.fetchOk g m = true
    · by_cases hp : o.parseOk g m = true
      · have h2 : (fetchSeq o g (m + 1) k).2 = true := by
          simpa [fetchSeq, hf, hp] using h
        simp only [fetchSeq, hf, hp, if_true]
        cases j with
        | zero => simp
        | succ j =>
          have e1 : m + (j + 1) = (m + 1) + j := by omega
          rw [e1]
          have hm := ih (m + 1) h2 j (by omega)
          exact ⟨List.mem_cons_of_mem _ (List.mem_cons_of_mem _ hm.1),
            List.mem_cons_of_mem _ (List.mem_cons_of_mem _ hm.2)⟩
      · have hp2 : o.parseOk g m = false := by
          revert hp
          cases o.parseOk g m <;> simp
        simp [fetchSeq, hf, hp2] at h
    · have hf2 : o.fetchOk g m = false := by
        revert hf
        cases o.fetchOk g m <;> simp
      simp [fetchSeq, hf2] at h

theorem runGroup_shape (o : Oracle) (g size : Nat)
    (hflag : (fetchSeq o g 0 size).2 = true) (hsz : size ≠ 0) :
    ∃ t, (runGroup o g size).1 = (fetchSeq o g 0 size).1 ++ Ev.opn g :: t := by
  by_cases ho : o.openOk g = true
  · refine ⟨(writeSeq o g 0 size).1 ++
      [if 0 < (writeSeq o g 0 size).2.1 then Ev.fin g else Ev.aband g], ?_⟩
    simp [runGroup, hflag, hsz, ho, writePhase]
  · have ho2 : o.openOk g = false := by
      revert ho
      cases o.openOk g <;> simp
    refine ⟨[], ?_⟩
    simp [runGroup, hflag, hsz, ho2]

theorem runGroup_group (o : Oracle) (g size : Nat) :
    ∀ e ∈ (runGroup o g size).1, evGroup e = g := by
  intro e he
  by_cases hflag : (fetchSeq o g 0 size).2 = true
  · by_cases hsz : size = 0
    · subst hsz
      simp [runGroup, hflag, fetchSeq] at he
    · by_cases ho : o.openOk g = true
      · simp only [runGroup, hflag, if_true, hsz, if_false, ho, writePhase] at he
        rcases List.mem_append.mp he with h | h
        · obtain ⟨j, hj⟩ := fetchSeq_mem o g size 0 e h
          rcases hj with hj | hj <;> subst hj <;> rfl
        · rcases List.mem_cons.mp h with h | h
          · subst h; rfl
          · rcases List.mem_append.mp h with h | h
            · obtain ⟨j, hj⟩ := writeSeq_mem o g size 0 e h
              subst hj; rfl
            · rw [List.mem_singleton] at h
              subst h
              by_cases hc : 0 < (writeSeq o g 0 size).2.1 <;> simp [hc, evGroup]
      · have ho2 : o.openOk g = false := by
          revert ho
          cases o.openOk g <;> simp
        simp only [runGroup, hflag, if_true, hsz, if_false, ho2,
          Bool.false_eq_true] at he
        rcases List.mem_append.mp he with h | h
        · obtain ⟨j, hj⟩ := fetchSeq_mem o g size 0 e h
          rcases hj with hj | hj <;> subst hj <;> rfl
        · rw [List.mem_singleton] at h
          subst h
          rfl
  · have hflag2 : (fetchSeq o g 0 size).2 = false := by
      revert hflag
      cases (fetchSeq o g 0 size).2 <;> simp
    simp only [runGroup, hflag2, Bool.false_eq_true, if_false] at he
    obtain ⟨j, hj⟩ := fetchSeq_mem o g size 0 e he
    rcases hj with hj | hj <;> subst hj <;> rfl

theorem runGroup_opn (o : Oracle) (g size : Nat) (g2 : Nat)
    (h : Ev.opn g2 ∈ (runGroup o g size).1) :
    g2 = g ∧ (fetchSeq o g 0 size).2 = true ∧ size ≠ 0 := by
  have hg : g2 = g := runGroup_group o g size _ h
  subst hg
  refine ⟨rfl, ?_, ?_⟩
  · by_cases hflag : (fetchSeq o g2 0 size).2 = true
    · exact hflag
    · exfalso
      have hflag2 : (fetchSeq o g2 0 size).2 = false := by
        revert hflag
        cases (fetchSeq o g2 0 size).2 <;> simp
      simp only [runGroup, hflag2, Bool.false_eq_true, if_false] at h
      obtain ⟨j, hj⟩ := fetchSeq_mem o g2 size 0 _ h
      rcases hj with hj | hj <;> simp at hj
  · intro hsz
    subst hsz
    by_cases hflag : (fetchSeq o g2 0 0).2 = true
    · simp [runGroup, hflag, fetchSeq] at h
    · have hflag2 : (fetchSeq o g2 0 0).2 = false := by
        revert hflag
        cases (fetchSeq o g2 0 0).2 <;> simp
      simp [runGroup, hflag2, fetchSeq] at h

theorem takeWhile_append_all {α : Type} (p : α → Bool) (l1 l2 : List α)
    (h : ∀ e ∈ l1, p e = true) :
    (l1 ++ l2).takeWhile p = l1 ++ l2.takeWhile p := by
  induction l1 with
  | nil => simp
  | cons a t ih =>
    have ha : p a = true := h a (by simp)
    simp only [List.cons_append, List.takeWhile_cons, ha, if_true]
    rw [ih (fun e he => h e (by simp [he]))]

theorem group_prefix_mem (o : Oracle) (k size : Nat)
    (hflag : (fetchSeq o k 0 size).2 = true) (hsz : size ≠ 0)
    (tail : List Ev) (m : Nat) (hm : m < size) :
    Ev.fetch k m ∈ ((runGroup o k size).1 ++ tail).takeWhile (fun e => !(e == Ev.opn k)) ∧
    Ev.parse k m ∈ ((runGroup o k size).1 ++ tail).takeWhile (fun e => !(e == Ev.opn k)) := by
  obtain ⟨t, ht⟩ := runGroup_shape o k size hflag hsz
  rw [ht, List.append_assoc, List.cons_append]
  have hfe : ∀ e ∈ (fetchSeq o k 0 size).1, (fun e => !(e == Ev.opn k)) e = true := by
    intro e he
    obtain ⟨j, hj⟩ := fetchSeq_mem o k size 0 e he
    rcases hj with hj | hj <;> subst hj <;> simp
  rw [takeWhile_append_all _ _ _ hfe]
  have hstop : List.takeWhile (fun e => !(e == Ev.opn k)) (Ev.opn k :: (t ++ tail)) = [] := by
    simp [List.takeWhile_cons]
  rw [hstop, List.append_nil]
  have hmem := fetchSeq_members o k size 0 hflag m hm
  simpa using hmem

theorem runAll_opn_cases (o : Oracle) (g : Nat) :
    ∀ (parts : List Nat) (k : Nat),
      Ev.opn g ∈ runAll o parts k →
      k ≤ g ∧ (fetchSeq o g 0 (parts.getD (g - k) 0)).2 = true ∧
      ∀ m, m < parts.getD (g - k) 0 →
        Ev.fetch g m ∈ (runAll o parts k).takeWhile (fun e => !(e == Ev.opn g)) ∧
        Ev.parse g m ∈ (runAll o parts k).takeWhile (fun e => !(e == Ev.opn g)) := by
  intro parts
  induction parts with
  | nil => intro k h; simp [runAll] at h
  | cons size rest ih =>
    intro k h
    by_cases hok : (runGroup o k size).2 = true
    · have hra : runAll o (size :: rest) k = (runGroup o k size).1 ++ runAll o rest (k + 1) := by
        simp [runAll, hok]
      rw [hra] at h ⊢
      rcases List.mem_append.mp h with hmem | hmem
      · obtain ⟨hgk, hflag, hsz⟩ := runGroup_opn o k size g hmem
        subst hgk
        rw [Nat.sub_self]
        refine ⟨le_refl _, hflag, fun m hm => ?_⟩
        exact group_prefix_mem o g size hflag hsz _ m hm
      · obtain ⟨hkg, hflag, hpre⟩ := ih (k + 1) hmem
        have hgd : (size :: rest).getD (g - k) 0 = rest.getD (g - (k + 1)) 0 := by
          have h1 : g - k = (g - (k + 1)) + 1 := by omega
          rw [h1]
          rfl
        rw [hgd]
        refine ⟨by omega, hflag, fun m hm => ?_⟩
        have hmm := hpre m hm
        have hgrp : ∀ e ∈ (runGroup o k size).1, (fun e => !(e == Ev.opn g)) e = true := by
          intro e he
          have hge := runGroup_group o k size e he
          simp only [Bool.not_eq_true', beq_eq_false_iff_ne, ne_eq]
          intro heq
          subst heq
          simp only [evGroup] at hge
          omega
        rw [takeWhile_append_all _ _ _ hgrp]
        exact ⟨List.mem_append_right _ hmm.1, List.mem_append_right _ hmm.2⟩
    · have hok2 : (runGroup o k size).2 = false := by
        revert hok
        cases (runGroup o k size).2 <;> simp
      have hra : runAll o (size :: rest) k = (runGroup o k size).1 := by
        simp [runAll, hok2]
      rw [hra] at h ⊢
      obtain ⟨hgk, hflag, hsz⟩ := runGroup_opn o k size g h
      subst hgk
      rw [Nat.sub_self]
      refine ⟨le_refl _, hflag, fun m hm => ?_⟩
      have := group_prefix_mem o g size hflag hsz [] m hm
      simpa using this

/-- C3: in the generate_kernels run, the output file of a group is
never opened before every member of that group has been successfully
fetched and parsed: a fetch or parse failure of any member means the
trace contains no open event for that group at all, and whenever the
open event occurs, every member's fetch and parse succeeded and their
events precede the open event in the trace. -/
theorem no_open_before_group_complete (o : Oracle) (parts : List Nat) (g : Nat) :
    ((∃ m, m < parts.getD g 0 ∧ (o.fetchOk g m = false ∨ o.parseOk g m = false)) →
      Ev.opn g ∉ runAll o parts 0) ∧
    (Ev.opn g ∈ runAll o parts 0 →
      ∀ m, m < parts.getD g 0 →
        (o.fetchOk g m = true ∧ o.parseOk g m = true) ∧
        Ev.fetch g m ∈ (runAll o parts 0).takeWhile (fun e => !(e == Ev.opn g)) ∧
        Ev.parse g m ∈ (runAll o parts 0).takeWhile (fun e => !(e == Ev.opn g))) := by
  have main := runAll_opn_cases o g parts 0
  simp only [Nat.sub_zero] at main
  constructor
  · rintro ⟨m, hm, hfail⟩ hmem
    obtain ⟨-, hflag, -⟩ := main hmem
    have hall := fetchSeq_flag_true o g (parts.getD g 0) 0 hflag m hm
    rw [Nat.zero_add] at hall
    rcases hfail with hf | hf
    · rw [hall.1] at hf
      simp at hf
    · rw [hall.2] at hf
      simp at hf
  · intro hmem m hm
    obtain ⟨-, hflag, hpre⟩ := main hmem
    have hall := fetchSeq_flag_true o g (parts.getD g 0) 0 hflag m hm
    rw [Nat.zero_add] at hall
    exact ⟨hall, hpre m hm⟩

theorem no_open_before_group_complete_witness :
    Ev.opn 0 ∉ runAll
      ⟨fun g m => !(g == 0 && m == 1), fun _ _ => true, fun _ _ => true, fun _ => true⟩
      [2, 1] 0 :=
  (no_open_before_group_complete
    ⟨fun g m => !(g == 0 && m == 1), fun _ _ => true, fun _ _ => true, fun _ => true⟩
    [2, 1] 0).1 ⟨1, by decide, Or.inl (by decide)⟩
